import Mathlib

/-!
Shallow embedding of the Big Two rules engine (hand classifier, hand
comparator, combination enumerator and bot move selection) of the
`yeci226/big-two` repository, together with theorems settling the frozen
claims about it.

Card model: `src/lib/game/types.ts` (suits, ranks, `SuitOrder`, `RankOrder`).
Classifier/comparator/smart bot: `logic.ts` (`getCardWeight`, `sortCards`,
`identifyHand`, `HandTypeOrder`, `compareHands`, `findFiveCardHands`,
`getAllPairs`, `getSmartBotPlay`).
Enumerator: `evaluate.ts` (`evaluateHand`, `findAllFiveCardHands`,
`findAllStraights`, `findAllPairs`, `calculateStrength`).
Lookahead bot: `src/lib/game/bot-strategy.ts` (`chooseBestMove`,
`getAllLegalMoves`, `simulateFuture`, scoring helpers).

JavaScript's stable `Array.prototype.sort` is modelled by insertion sort
with a non-strict comparison (extensionally the unique stable sort by key).
JavaScript `null` results become `Option.none`; out-of-bounds element
accesses that could only occur on an empty hand are modelled as `none`.
The JavaScript `-Infinity` score accumulator is modelled with `WithBot Int`.
-/

namespace BigTwo

inductive Suit where
  | Spades | Hearts | Diamonds | Clubs
deriving DecidableEq, Repr

def SuitOrder : Suit → Nat
  | .Spades => 3
  | .Hearts => 2
  | .Diamonds => 1
  | .Clubs => 0

inductive Rank where
  | R3 | R4 | R5 | R6 | R7 | R8 | R9 | R10 | RJ | RQ | RK | RA | R2
deriving DecidableEq, Repr

def RankOrder : Rank → Nat
  | .R3 => 0
  | .R4 => 1
  | .R5 => 2
  | .R6 => 3
  | .R7 => 4
  | .R8 => 5
  | .R9 => 6
  | .R10 => 7
  | .RJ => 8
  | .RQ => 9
  | .RK => 10
  | .RA => 11
  | .R2 => 12

/-- A card: suit, rank, and the `id` string (modelled as a number) used for
set membership and removal throughout the source. -/
structure Card where
  suit : Suit
  rank : Rank
  id : Nat
deriving DecidableEq, Repr

def getCardWeight (card : Card) : Nat :=
  RankOrder card.rank * 10 + SuitOrder card.suit

/-- The comparison relation of the JavaScript `sortCards` comparator. -/
def cardLE (a b : Card) : Prop := getCardWeight a ≤ getCardWeight b

instance : DecidableRel cardLE := fun _ _ => Nat.decLe _ _

instance : IsTotal Card cardLE := ⟨fun _ _ => Nat.le_total _ _⟩

instance : IsTrans Card cardLE := ⟨fun _ _ _ => Nat.le_trans⟩

/-- `sortCards`: stable ascending sort by card weight. -/
def sortCards (cards : List Card) : List Card :=
  List.insertionSort cardLE cards

inductive HandType where
  | Single | Pair | Straight | FullHouse | FourOfAKind | StraightFlush | Dragon | None
deriving DecidableEq, Repr

structure Hand where
  cards : List Card
  type : HandType
  strength : Nat
deriving DecidableEq, Repr

/-- The consecutive-weights loop of the straight check, on the five sorted
rank orders. -/
def isStandardStraightCheck (w0 w1 w2 w3 w4 : Nat) : Bool :=
  (w1 == w0 + 1) && (w2 == w1 + 1) && (w3 == w2 + 1) && (w4 == w3 + 1)

/-- The A-2-3-4-5 wrap test on the sorted ranks. -/
def isA2345Check (rs : List Rank) : Bool :=
  rs.contains .RA && rs.contains .R2 && rs.contains .R3 && rs.contains .R4 && rs.contains .R5

/-- The 2-3-4-5-6 wrap test on the sorted ranks. -/
def is23456Check (rs : List Rank) : Bool :=
  rs.contains .R2 && rs.contains .R3 && rs.contains .R4 && rs.contains .R5 && rs.contains .R6

/-- The 5-card arm of `identifyHand`, applied to the weight-sorted cards
`[a, b, c, d, e]`. -/
def identifyFive (a b c d e : Card) : Option Hand :=
  let sorted := [a, b, c, d, e]
  let isStandardStraight :=
    isStandardStraightCheck (RankOrder a.rank) (RankOrder b.rank) (RankOrder c.rank)
      (RankOrder d.rank) (RankOrder e.rank)
  let sortedRanks := [a.rank, b.rank, c.rank, d.rank, e.rank]
  let isA2345 := isA2345Check sortedRanks
  let is23456 := is23456Check sortedRanks
  if isStandardStraight || isA2345 || is23456 then
    let isFlush := (b.suit == a.suit) && (c.suit == a.suit) && (d.suit == a.suit) && (e.suit == a.suit)
    let seqAndRank : Nat × Rank :=
      if is23456 then (10, .R6)
      else if isA2345 then (1, .R5)
      else (RankOrder e.rank - 2, e.rank)
    match sorted.find? (fun x => x.rank == seqAndRank.2) with
    | some rankingCard =>
      let strength := seqAndRank.1 * 10 + SuitOrder rankingCard.suit
      if isFlush then some ⟨sorted, .StraightFlush, strength⟩
      else some ⟨sorted, .Straight, strength⟩
    | none => none
  else if a.rank == d.rank || b.rank == e.rank then
    some ⟨sorted, .FourOfAKind, RankOrder c.rank⟩
  else if (a.rank == c.rank && d.rank == e.rank) || (a.rank == b.rank && c.rank == e.rank) then
    some ⟨sorted, .FullHouse, RankOrder c.rank⟩
  else
    none

/-- `identifyHand(cards)`: classify a card group, or `none` for an
unrecognized pattern. -/
def identifyHand (cards : List Card) : Option Hand :=
  match sortCards cards with
  | [] => none
  | [c] => some ⟨[c], .Single, getCardWeight c⟩
  | [a, b] =>
    if a.rank == b.rank then
      some ⟨[a, b], .Pair, max (getCardWeight a) (getCardWeight b)⟩
    else none
  | [a, b, c, d, e] => identifyFive a b c d e
  | [c1, c2, c3, c4, c5, c6, c7, c8, c9, c10, c11, c12, c13] =>
    if (cards.map (·.rank)).dedup.length == 13 then
      some ⟨[c1, c2, c3, c4, c5, c6, c7, c8, c9, c10, c11, c12, c13], .Dragon, getCardWeight c13⟩
    else none
  | _ => none

def HandTypeOrder : HandType → Nat
  | .None => 0
  | .Single => 1
  | .Pair => 1
  | .Straight => 2
  | .FullHouse => 3
  | .FourOfAKind => 4
  | .StraightFlush => 5
  | .Dragon => 6

/-- The bomb test the comparator applies to either hand. -/
def isBombType (t : HandType) : Bool :=
  t == .FourOfAKind || t == .StraightFlush

/-- `compareHands(newHand, prevHand)`: may `newHand` legally be played on
top of `prevHand`. -/
def compareHands (newHand prevHand : Hand) : Bool :=
  if isBombType newHand.type then
    if isBombType prevHand.type then
      if HandTypeOrder newHand.type > HandTypeOrder prevHand.type then true
      else if HandTypeOrder newHand.type == HandTypeOrder prevHand.type then
        decide (newHand.strength > prevHand.strength)
      else false
    else true
  else
    if newHand.cards.length ≠ prevHand.cards.length then false
    else if newHand.type ≠ prevHand.type then false
    else decide (newHand.strength > prevHand.strength)

/-! Combination enumerator (`evaluate.ts`). -/

inductive Category where
  | bomb | five | pair | single
deriving DecidableEq, Repr

structure CardCombination where
  cards : List Card
  hand : Hand
  priority : Nat
  category : Category
deriving DecidableEq, Repr

structure HandEvaluation where
  bombs : List CardCombination
  fiveCards : List CardCombination
  pairs : List CardCombination
  singles : List Card
  totalStrength : Int
deriving Repr

/-- Descending-priority relation of the `(a, b) => b.priority - a.priority`
sort comparator. -/
def combGE (a b : CardCombination) : Prop := b.priority ≤ a.priority

instance : DecidableRel combGE := fun _ _ => Nat.decLe _ _

instance : IsTotal CardCombination combGE := ⟨fun _ _ => Nat.le_total _ _⟩

instance : IsTrans CardCombination combGE := ⟨fun _ _ _ h h2 => Nat.le_trans h2 h⟩

/-- The `byRank` record: one group per rank present, each group listing that
rank's cards in hand order. -/
def rankGroups (cards : List Card) : List (List Card) :=
  ((cards.map (·.rank)).foldl (fun acc r => if r ∈ acc then acc else acc ++ [r]) []).map
    (fun r => cards.filter (fun c => c.rank == r))

/-- The four-of-a-kind block of `findAllFiveCardHands`: every quad paired
with every off-rank kicker, kept when it re-identifies as FourOfAKind. -/
def quadCombos (cards : List Card) : List CardCombination :=
  ((rankGroups cards).filter (fun g => g.length == 4)).flatMap (fun quad =>
    cards.filterMap (fun kicker =>
      match quad with
      | q0 :: _ =>
        if kicker.rank == q0.rank then none
        else
          match identifyHand (quad ++ [kicker]) with
          | some h =>
            if h.type == .FourOfAKind then
              some ⟨quad ++ [kicker], h, h.strength + 10000, .bomb⟩
            else none
          | none => none
      | [] => none))

/-- The full-house block of `findAllFiveCardHands`: every (triple group,
pair group) cross product over distinct ranks, kept when it re-identifies
as FullHouse. -/
def fullHouseCombos (cards : List Card) : List CardCombination :=
  let groups := rankGroups cards
  let triples := groups.filter (fun g => 3 ≤ g.length)
  let pairGroups := groups.filter (fun g => 2 ≤ g.length)
  triples.flatMap (fun t =>
    pairGroups.filterMap (fun p =>
      match t, p with
      | t0 :: _, p0 :: _ =>
        if t0.rank == p0.rank then none
        else
          let handCards := t.take 3 ++ p.take 2
          match identifyHand handCards with
          | some h =>
            if h.type == .FullHouse then some ⟨handCards, h, h.strength, .five⟩
            else none
          | none => none
      | _, _ => none))

def RANK_ORDER_LIST : List Rank :=
  [.R3, .R4, .R5, .R6, .R7, .R8, .R9, .R10, .RJ, .RQ, .RK, .RA, .R2]

/-- Pick, for each required rank in order, the first card of that rank;
fails when a rank is missing (models the find-and-break loops). -/
def pickRanks (rs : List Rank) (cards : List Card) : Option (List Card) :=
  match rs with
  | [] => some []
  | r :: rest =>
    match cards.find? (fun c => c.rank == r), pickRanks rest cards with
    | some c, some cs => some (c :: cs)
    | _, _ => none

/-- `findAllStraights`: every contiguous 5-rank window of `RANK_ORDER`
present in the hand, plus the A-2-3-4-5 special case. -/
def findAllStraights (cards : List Card) : List (List Card) :=
  let windows := (List.range 9).filterMap (fun i => pickRanks ((RANK_ORDER_LIST.drop i).take 5) cards)
  let a2345 := pickRanks [.RA, .R2, .R3, .R4, .R5] cards
  windows ++ (match a2345 with | some l => [l] | none => [])

/-- The straight block of `findAllFiveCardHands`. -/
def straightCombos (cards : List Card) : List CardCombination :=
  (findAllStraights cards).filterMap (fun straight =>
    match identifyHand straight with
    | none => none
    | some h =>
      some ⟨straight, h,
        (if h.type == .StraightFlush then h.strength + 10000 else h.strength),
        (if h.type == .StraightFlush then .bomb else .five)⟩)

def findAllFiveCardHands (cards : List Card) : List CardCombination :=
  List.insertionSort combGE (quadCombos cards ++ fullHouseCombos cards ++ straightCombos cards)

/-- The adjacent-equal-rank scan of `findAllPairs`, before its sort. -/
def adjacentPairCombos : List Card → List CardCombination
  | x :: y :: rest =>
    (if x.rank == y.rank then
      match identifyHand [x, y] with
      | some h => [⟨[x, y], h, h.strength, .pair⟩]
      | none => []
    else []) ++ adjacentPairCombos (y :: rest)
  | _ => []

def findAllPairs (cards : List Card) : List CardCombination :=
  List.insertionSort combGE (adjacentPairCombos cards)

def calculateStrength (bombs fives pairCombos : List CardCombination) (singles : List Card) : Int :=
  (bombs.length : Int) * 1000 + (fives.length : Int) * 200 + (pairCombos.length : Int) * 30
    - 5 * ((singles.filter (fun c => 40 ≤ getCardWeight c)).length : Int)

/-- `evaluateHand(cards)`: partition a hand into bombs, non-bomb five-card
combinations, pairs and leftover singles. -/
def evaluateHand (cards : List Card) : HandEvaluation :=
  let sorted := sortCards cards
  let fiveCards := findAllFiveCardHands sorted
  let bombs := fiveCards.filter (fun c => isBombType c.hand.type)
  let normalFives := fiveCards.filter (fun c => !(isBombType c.hand.type))
  let pairCombos := findAllPairs sorted
  let used := (bombs ++ normalFives ++ pairCombos).flatMap (fun c => c.cards.map (·.id))
  let singles := sorted.filter (fun c => !(used.contains c.id))
  ⟨bombs, normalFives, pairCombos, singles, calculateStrength bombs normalFives pairCombos singles⟩

/-! Lookahead bot (`bot-strategy.ts`). -/

structure BotContext where
  myHandSize : Nat
  opponentsHandSizes : List Nat
  lastPlayedHand : Option Hand
  consecutivePasses : Nat

/-- The single-card combination the bot builds from a leftover single. The
source applies a non-null assertion to `identifyHand([c])`, which always
succeeds; `getD` supplies a dead default. -/
def singleCombo (c : Card) : CardCombination :=
  ⟨[c], (identifyHand [c]).getD ⟨[c], .None, 0⟩, getCardWeight c, .single⟩

/-- `canBeat(my, last)`: the legality filter of the lookahead bot. -/
def canBeat (my last : Hand) : Bool :=
  if isBombType my.type && !(isBombType last.type) then true
  else if my.type ≠ last.type then false
  else decide (my.strength > last.strength)

/-- `getAllLegalMoves`: when leading, non-bomb five-card hands, pairs and
singles; when following, everything (bombs included) filtered by `canBeat`. -/
def getAllLegalMoves (evaluation : HandEvaluation) (lastPlayedHand : Option Hand) :
    List CardCombination :=
  match lastPlayedHand with
  | none =>
    evaluation.fiveCards ++ evaluation.pairs ++ evaluation.singles.map singleCombo
  | some last =>
    (evaluation.bombs ++ evaluation.fiveCards ++ evaluation.pairs ++
      evaluation.singles.map singleCombo).filter (fun m => canBeat m.hand last)

def removeCards (all used : List Card) : List Card :=
  let usedIds := used.map (·.id)
  all.filter (fun c => !(usedIds.contains c.id))

def evaluateEndState (cards : List Card) : Int :=
  -(cards.length : Int) * 10 - 5 * ((cards.filter (fun c => 40 ≤ getCardWeight c)).length : Int)

def moveCost (move : CardCombination) (evaluation : HandEvaluation) : Int :=
  let base : Int :=
    (if move.category == .single then 2 else 0) + (if move.category == .pair then 3 else 0)
  let protectedIds :=
    (evaluation.fiveCards ++ evaluation.bombs).flatMap (fun c => c.cards.map (·.id))
  let breakCost : Int :=
    if move.cards.length < 5 then
      20 * ((move.cards.filter (fun c => protectedIds.contains c.id)).length : Int)
    else 0
  base + breakCost + (if move.category == .bomb then 10 else 0)

def immediateScore (move : CardCombination) (evaluation : HandEvaluation) : Int :=
  (move.cards.length : Int) * 15 + (if move.category == .five then 20 else 0) +
    (if move.category == .bomb then 50 else 0) - moveCost move evaluation

def dangerAdjustment (move : CardCombination) (dangerousOpponent : Bool) : Int :=
  if !dangerousOpponent then 0
  else if move.category == .bomb then 30
  else if move.category == .single then
    match move.cards with
    | c :: _ => if getCardWeight c < 30 then -20 else 0
    | [] => 0
  else 0

/-- `simulateFuture(cards, depth)`: greedy depth-limited self-play; the JS
`-Infinity` accumulator is `⊥ : WithBot Int`. -/
def simulateFuture : List Card → Nat → WithBot Int
  | cards, 0 => ((evaluateEndState cards : Int) : WithBot Int)
  | cards, depth + 1 =>
    if cards.length == 0 then ((evaluateEndState cards : Int) : WithBot Int)
    else
      let evalHand := evaluateHand cards
      let moves := evalHand.fiveCards ++ evalHand.pairs ++ evalHand.singles.map singleCombo
      moves.foldl
        (fun best m =>
          max best
            (((-(moveCost m evalHand) : Int) : WithBot Int) +
              simulateFuture (removeCards cards m.cards) depth))
        ⊥

/-- Descending-score relation used to model the `(a, b) => b.score - a.score`
sort of the scored candidate list. -/
def scoreGE (a b : CardCombination × WithBot Int) : Prop := b.2 ≤ a.2

instance : DecidableRel scoreGE := fun a b => inferInstanceAs (Decidable (b.2 ≤ a.2))

instance : IsTotal (CardCombination × WithBot Int) scoreGE :=
  ⟨fun a b => le_total b.2 a.2⟩

instance : IsTrans (CardCombination × WithBot Int) scoreGE :=
  ⟨fun _ _ _ h h2 => le_trans h2 h⟩

/-- `chooseBestMove`: scores every legal move and plays the best, or passes
when no legal move exists. -/
def chooseBestMove (cards : List Card) (evaluation : HandEvaluation)
    (context : BotContext) : Option (List Card) :=
  let legalMoves := getAllLegalMoves evaluation context.lastPlayedHand
  if legalMoves.length == 0 then none
  else
    let dangerousOpponent := context.opponentsHandSizes.any (fun s => decide (s ≤ 3))
    let scored := legalMoves.map (fun move =>
      (move,
        simulateFuture (removeCards cards move.cards) 2 +
          ((immediateScore move evaluation : Int) : WithBot Int) +
          ((dangerAdjustment move dangerousOpponent : Int) : WithBot Int)))
    match List.insertionSort scoreGE scored with
    | s :: _ => some s.1.cards
    | [] => none

/-! Smart bot (`logic.ts`). -/

/-- `findFiveCardHands` of `logic.ts`: full houses, quads, the nine
contiguous rank windows, then the A-2-3-4-5 and 2-3-4-5-6 specials, as raw
card lists. -/
def findFiveCardHands (hand : List Card) : List (List Card) :=
  let sorted := sortCards hand
  let groups := rankGroups sorted
  let triples := groups.filter (fun g => 3 ≤ g.length)
  let pairGroups := groups.filter (fun g => 2 ≤ g.length)
  let fullHouses := triples.flatMap (fun t =>
    pairGroups.filterMap (fun p =>
      match p, t with
      | p0 :: _, t0 :: _ =>
        if p0.rank == t0.rank then none else some (t.take 3 ++ p.take 2)
      | _, _ => none))
  let quads := (groups.filter (fun g => g.length == 4)).flatMap (fun q =>
    sorted.filterMap (fun c =>
      match q with
      | q0 :: _ => if c.rank == q0.rank then none else some (q ++ [c])
      | [] => none))
  let windows := (List.range 9).filterMap (fun i => pickRanks ((RANK_ORDER_LIST.drop i).take 5) sorted)
  let a2345 := match pickRanks [.RA, .R2, .R3, .R4, .R5] sorted with | some l => [l] | none => []
  let w23456 := match pickRanks [.R2, .R3, .R4, .R5, .R6] sorted with | some l => [l] | none => []
  fullHouses ++ quads ++ windows ++ a2345 ++ w23456

/-- `getAllPairs(sortedHand)`: every adjacent equal-rank pair. -/
def getAllPairs : List Card → List (List Card)
  | x :: y :: rest =>
    (if x.rank == y.rank then [[x, y]] else []) ++ getAllPairs (y :: rest)
  | _ => []

/-- The `myBombs` list of `getSmartBotPlay`: five-card combinations whose
identified type is a bomb, as their (sorted) card lists. -/
def findBombs (sorted : List Card) : List (List Card) :=
  (((findFiveCardHands sorted).filterMap identifyHand).filter
    (fun h => isBombType h.type)).map (fun h => h.cards)

/-- The `validPairs` list of the smart bot's Pair branch. -/
def smartValidPairs (sorted : List Card) (last : Hand) : List (List Card) :=
  (getAllPairs sorted).filter (fun p =>
    match identifyHand p with
    | some h => decide (h.strength > last.strength)
    | none => false)

/-- `getSmartBotPlay`: the rank-greedy smart bot. The leading `[]` case
collapses the behaviours only an empty hand can trigger — among them the
JavaScript TypeError raised by `getCardWeight(sorted[sorted.length - 1])`
when following a Single with the next player at one card; that error path
is modelled faithfully by `smartBotFollowSingleE` below. -/
def getSmartBotPlay (hand : List Card) (lastPlayed : Option Hand) (isFirstTurn : Bool)
    (opponentsHandSizes : List Nat) (_consecutivePasses : Nat)
    (nextPlayerHandSize : Option Nat) : Option (List Card) :=
  match sortCards hand with
  | [] => none
  | c0 :: rest =>
    let sorted := c0 :: rest
    if isFirstTurn then
      match sorted.find? (fun cc => cc.rank == .R3 && cc.suit == .Clubs) with
      | none => some [c0]
      | some club3 =>
        match (findFiveCardHands sorted).filter (fun f => f.any (fun cc => cc.id == club3.id)) with
        | f :: _ => some f
        | [] =>
          match (getAllPairs sorted).filter (fun p => p.any (fun cc => cc.id == club3.id)) with
          | p :: _ => some p
          | [] => some [club3]
    else
      let myFives := findFiveCardHands sorted
      let myBombs := findBombs sorted
      match lastPlayed with
      | none =>
        let freeCD : Option (List Card) :=
          match getAllPairs sorted with
          | p :: _ => some p
          | [] =>
            match sorted.filter (fun cc => decide (RankOrder cc.rank < 8)) with
            | s :: _ => some [s]
            | [] => some [c0]
        match myFives with
        | [] => freeCD
        | f :: _ =>
          if hand.length == 5 then some f
          else if hand.length ≤ 5 then some f
          else
            match myFives.filter (fun cs =>
              match identifyHand cs with
              | some h => !(isBombType h.type)
              | none => false) with
            | nb :: _ => some nb
            | [] => freeCD
      | some last =>
        if last.type == .Single then
          if nextPlayerHandSize == some 1 then
            let myLargest := (c0 :: rest).getLast (List.cons_ne_nil c0 rest)
            if decide (getCardWeight myLargest > last.strength) then some [myLargest]
            else
              match myBombs with
              | b :: _ => some b
              | [] => none
          else
            match sorted.filter (fun cc => decide (getCardWeight cc > last.strength)) with
            | v0 :: vrest =>
              match (v0 :: vrest).filter (fun cc => !(cc.rank == .R2)) with
              | n0 :: _ => some [n0]
              | [] => some [v0]
            | [] =>
              if opponentsHandSizes.any (fun s => decide (s ≤ 3)) || hand.length ≤ 5 then
                match myBombs with
                | b :: _ => some b
                | [] => none
              else none
        else if last.type == .Pair then
          match smartValidPairs sorted last with
          | bestPair :: _ =>
            let isPair2 := match bestPair with | x :: _ => x.rank == .R2 | [] => false
            let dangerousOpponent := opponentsHandSizes.any (fun s => decide (s ≤ 3))
            let amILateGame := decide (hand.length ≤ 5)
            if isPair2 && !dangerousOpponent && !amILateGame then none
            else some bestPair
          | [] =>
            match myBombs with
            | b :: _ => some b
            | [] => none
        else if last.type == .Straight || last.type == .FullHouse ||
            last.type == .FourOfAKind || last.type == .StraightFlush ||
            last.type == .Dragon then
          myFives.find? (fun f =>
            match identifyHand f with
            | some h => compareHands h last
            | none => false)
        else none

/-- The follow-a-Single branch of `getSmartBotPlay` (reached when
`isFirstTurn` is falsy and `lastPlayed.type === "Single"`), with the
error path represented instead of collapsed: on an empty hand with the
next player at one card, `sorted[sorted.length - 1]` is `undefined` and
`getCardWeight` of it throws a TypeError, modelled as `.error ()`; every
normal return value `x` is `.ok x`. -/
def smartBotFollowSingleE (hand : List Card) (lastPlayed : Hand)
    (opponentsHandSizes : List Nat) (nextPlayerHandSize : Option Nat) :
    Except Unit (Option (List Card)) :=
  let sorted := sortCards hand
  let myBombs := findBombs sorted
  if nextPlayerHandSize == some 1 then
    match sorted.getLast? with
    | none => .error ()
    | some myLargest =>
      if decide (getCardWeight myLargest > lastPlayed.strength) then .ok (some [myLargest])
      else
        match myBombs with
        | b :: _ => .ok (some b)
        | [] => .ok none
  else
    match sorted.filter (fun cc => decide (getCardWeight cc > lastPlayed.strength)) with
    | v0 :: vrest =>
      match (v0 :: vrest).filter (fun cc => !(cc.rank == .R2)) with
      | n0 :: _ => .ok (some [n0])
      | [] => .ok (some [v0])
    | [] =>
      if opponentsHandSizes.any (fun s => decide (s ≤ 3)) || hand.length ≤ 5 then
        match myBombs with
        | b :: _ => .ok (some b)
        | [] => .ok none
      else .ok none

/-! Theorems. -/

/-- Full case characterization of `compareHands`, shared by the comparator
claims. -/
lemma compareHands_eq_true_iff (c r : Hand) :
    compareHands c r = true ↔
      (isBombType c.type = true ∧ isBombType r.type = false) ∨
      (isBombType c.type = true ∧ isBombType r.type = true ∧
        (HandTypeOrder c.type > HandTypeOrder r.type ∨
          (HandTypeOrder c.type = HandTypeOrder r.type ∧ c.strength > r.strength))) ∨
      (isBombType c.type = false ∧ c.cards.length = r.cards.length ∧ c.type = r.type ∧
        c.strength > r.strength) := by
  unfold compareHands
  by_cases hc : isBombType c.type = true
  · by_cases hr : isBombType r.type = true
    · simp only [hc, hr, if_true]
      split_ifs with h1 h2
      · simp [hc, hr, h1]
      · rw [beq_iff_eq] at h2
        simp [hc, hr, h1, h2]
      · rw [beq_iff_eq] at h2
        simp [hc, hr, h1, h2]
    · simp [hc, hr]
  · rw [Bool.not_eq_true] at hc
    simp only [hc, Bool.false_eq_true, if_false]
    split_ifs with h1 h2
    · simp [hc, h1]
    · push_neg at h1
      simp [hc, h1, h2]
    · push_neg at h1 h2
      simp [hc, h1, h2]

/-- When the two types are equal, so is their bomb status. -/
lemma isBombType_congr {s t : HandType} (h : s = t) : isBombType s = isBombType t := by
  rw [h]

/-- C1: a bomb (FourOfAKind or StraightFlush) candidate beats any non-bomb
reference outright, regardless of strength, cardinality or reference type;
against another bomb it wins exactly when its `HandTypeOrder` rank
(FourOfAKind = 4 < StraightFlush = 5) is strictly higher, or the ranks tie
and its strength is strictly higher. -/
theorem claim_C1_bomb_override (c r : Hand) (hc : isBombType c.type = true) :
    compareHands c r = true ↔
      (isBombType r.type = false ∨
        HandTypeOrder c.type > HandTypeOrder r.type ∨
        (HandTypeOrder c.type = HandTypeOrder r.type ∧ c.strength > r.strength)) := by
  rw [compareHands_eq_true_iff]
  by_cases hr : isBombType r.type = true
  · simp [hc, hr]
  · rw [Bool.not_eq_true] at hr
    simp [hc, hr]

theorem claim_C1_bomb_override_witness :
    compareHands ⟨[], .FourOfAKind, 5⟩ ⟨[], .Single, 99⟩ = true ∧
    compareHands ⟨[], .StraightFlush, 0⟩ ⟨[], .FourOfAKind, 12⟩ = true :=
  ⟨(claim_C1_bomb_override ⟨[], .FourOfAKind, 5⟩ ⟨[], .Single, 99⟩ (by decide)).mpr
      (Or.inl (by decide)),
    (claim_C1_bomb_override ⟨[], .StraightFlush, 0⟩ ⟨[], .FourOfAKind, 12⟩ (by decide)).mpr
      (Or.inr (Or.inl (by decide)))⟩

/-- C2: a non-bomb candidate beats the reference exactly when cardinality
and type match and its strength is strictly greater; in particular a
Straight never beats a FullHouse. -/
theorem claim_C2_nonbomb_type_match (c r : Hand) :
    (isBombType c.type = false →
      (compareHands c r = true ↔
        (c.cards.length = r.cards.length ∧ c.type = r.type ∧ c.strength > r.strength))) ∧
    (c.type = .Straight → r.type = .FullHouse → compareHands c r = false) := by
  constructor
  · intro hc
    rw [compareHands_eq_true_iff]
    simp [hc]
  · intro hc hr
    rw [← Bool.not_eq_true, compareHands_eq_true_iff]
    simp [isBombType, hc, hr]

theorem claim_C2_nonbomb_type_match_witness :
    compareHands ⟨[⟨.Clubs, .R4, 0⟩], .Single, 10⟩ ⟨[⟨.Clubs, .R3, 1⟩], .Single, 0⟩ = true ∧
    compareHands ⟨[], .Straight, 999⟩ ⟨[], .FullHouse, 0⟩ = false :=
  ⟨((claim_C2_nonbomb_type_match ⟨[⟨.Clubs, .R4, 0⟩], .Single, 10⟩
        ⟨[⟨.Clubs, .R3, 1⟩], .Single, 0⟩).1 (by decide)).mpr (by decide),
    (claim_C2_nonbomb_type_match ⟨[], .Straight, 999⟩ ⟨[], .FullHouse, 0⟩).2 rfl rfl⟩

/-- C10: `compareHands` is irreflexive and asymmetric. -/
theorem claim_C10_irreflexive_asymmetric (a b : Hand) :
    compareHands a a = false ∧ (compareHands a b && compareHands b a) = false := by
  constructor
  · rw [← Bool.not_eq_true, compareHands_eq_true_iff]
    rintro (⟨h1, h2⟩ | ⟨_, _, h | ⟨_, h⟩⟩ | ⟨_, _, _, h⟩) <;> first | omega | simp_all
  · rw [Bool.and_eq_false_iff]
    by_cases hab : compareHands a b = true
    · right
      rw [← Bool.not_eq_true, compareHands_eq_true_iff]
      rw [compareHands_eq_true_iff] at hab
      rcases hab with ⟨g1, g2⟩ | ⟨g1, g2, g3⟩ | ⟨g1, g2, g3, g4⟩
      · rintro (⟨h1, h2⟩ | ⟨h1, h2, h3⟩ | ⟨h1, h2, h3, h4⟩)
        · simp_all
        · simp_all
        · rw [isBombType_congr h3] at h1
          simp_all
      · rintro (⟨h1, h2⟩ | ⟨h1, h2, h3⟩ | ⟨h1, h2, h3, h4⟩)
        · simp_all
        · omega
        · simp_all
      · rintro (⟨h1, h2⟩ | ⟨h1, h2, h3⟩ | ⟨h1, h2, h3, h4⟩)
        · rw [← isBombType_congr g3] at h1
          simp_all
        · rw [← isBombType_congr g3] at h1
          simp_all
        · omega
    · left
      rw [← Bool.not_eq_true]; exact hab

/-- C3 (code behaviour at the failing input): the code accepts J-Q-K-A-2 as
a standard consecutive straight window and gives it sequence rank
`12 - 2 = 10`, so the mixed-suit J-Q-K-A-2♠ straight has strength 103,
strictly above the 2♣-3♣-4♣-5♣-6♣ wrap's strength 100 — contradicting the
claim (and the source's own sequence-rank comment table) that 2-3-4-5-6
outranks every standard straight. -/
theorem claim_C3_jqka2_evidence :
    (identifyHand [⟨.Hearts, .RJ, 0⟩, ⟨.Hearts, .RQ, 1⟩, ⟨.Hearts, .RK, 2⟩,
        ⟨.Hearts, .RA, 3⟩, ⟨.Spades, .R2, 4⟩]).map (fun h => (h.type, h.strength)) =
      some (.Straight, 103) ∧
    (identifyHand [⟨.Clubs, .R2, 5⟩, ⟨.Clubs, .R3, 6⟩, ⟨.Clubs, .R4, 7⟩,
        ⟨.Clubs, .R5, 8⟩, ⟨.Clubs, .R6, 9⟩]).map (fun h => (h.type, h.strength)) =
      some (.StraightFlush, 100) := by
  constructor <;> decide

/-- C5 (counterexample): a 2-card group made of two copies of the 3 of
Clubs is classified as a Pair of strength 0, not as invalid. -/
theorem claim_C5_duplicate_counterexample :
    (identifyHand [⟨.Clubs, .R3, 0⟩, ⟨.Clubs, .R3, 0⟩]).map (fun h => (h.type, h.strength)) =
      some (.Pair, 0) := by decide

/-- C5 (amended): `identifyHand` does not detect duplicate card identity; a
group of two copies of the same card is classified by the ordinary pattern
rules as a Pair with strength equal to that card's weight. -/
theorem claim_C5_duplicate_pair_classified (c : Card) :
    identifyHand [c, c] = some ⟨[c, c], .Pair, getCardWeight c⟩ := by
  have hs : sortCards [c, c] = [c, c] := by
    simp [sortCards, List.insertionSort, List.orderedInsert, cardLE]
  simp [identifyHand, hs]

/-- Sorting a hand does not change membership. -/
lemma mem_sortCards {c : Card} {l : List Card} : c ∈ sortCards l ↔ c ∈ l :=
  (List.perm_insertionSort cardLE l).mem_iff

/-- A list of ids fails a `contains` test exactly when the id is not a
member. -/
lemma contains_eq_false_iff (ids : List Nat) (n : Nat) :
    (ids.contains n = false) ↔ ¬ n ∈ ids := by
  constructor
  · intro h hm
    have h2 : ids.contains n = true := List.elem_iff.mpr hm
    rw [h] at h2
    exact Bool.noConfusion h2
  · intro h
    exact Bool.eq_false_iff.mpr (fun hh => h (List.elem_iff.mp hh))

/-- Membership in the flattened id list of a combination list. -/
lemma id_mem_flatMap_iff (L : List CardCombination) (n : Nat) :
    n ∈ L.flatMap (fun cc => cc.cards.map (·.id)) ↔
      ∃ comb ∈ L, ∃ d ∈ comb.cards, d.id = n := by
  rw [List.mem_flatMap]
  constructor
  · rintro ⟨comb, h1, h2⟩
    obtain ⟨d, hd, hde⟩ := List.mem_map.mp h2
    exact ⟨comb, h1, d, hd, hde⟩
  · rintro ⟨comb, h1, d, hd, hde⟩
    exact ⟨comb, h1, List.mem_map.mpr ⟨d, hd, hde⟩⟩

/-- C6: the `singles` list of `evaluateHand` holds exactly the input cards
whose id occurs in none of the returned bombs, fiveCards or pairs
combinations; in particular, for any 13-card input, singles is disjoint by
card id from the union of those combinations' cards. -/
theorem claim_C6_singles_exactly_unused (cards : List Card) (c : Card) :
    (c ∈ (evaluateHand cards).singles ↔
      (c ∈ cards ∧
        ∀ comb ∈ (evaluateHand cards).bombs ++ (evaluateHand cards).fiveCards ++
            (evaluateHand cards).pairs, ∀ d ∈ comb.cards, d.id ≠ c.id)) ∧
    (cards.length = 13 → c ∈ (evaluateHand cards).singles →
      ∀ comb ∈ (evaluateHand cards).bombs ++ (evaluateHand cards).fiveCards ++
          (evaluateHand cards).pairs, ∀ d ∈ comb.cards, c.id ≠ d.id) := by
  have hmain : c ∈ (evaluateHand cards).singles ↔
      (c ∈ cards ∧
        ∀ comb ∈ (evaluateHand cards).bombs ++ (evaluateHand cards).fiveCards ++
            (evaluateHand cards).pairs, ∀ d ∈ comb.cards, d.id ≠ c.id) := by
    simp only [evaluateHand, List.mem_filter, Bool.not_eq_true']
    rw [contains_eq_false_iff, id_mem_flatMap_iff, mem_sortCards]
    push_neg
    tauto
  refine ⟨hmain, fun _ hc comb hcomb d hd => ?_⟩
  exact Ne.symm ((hmain.mp hc).2 comb hcomb d hd)

theorem claim_C6_singles_exactly_unused_witness :
    (⟨.Clubs, .R3, 7⟩ : Card) ∈ (evaluateHand [⟨.Clubs, .R3, 7⟩]).singles :=
  ((claim_C6_singles_exactly_unused [⟨.Clubs, .R3, 7⟩] ⟨.Clubs, .R3, 7⟩).1).mpr
    (by decide)

/-- Only the empty hand sorts to the empty list. -/
lemma sortCards_eq_nil {hand : List Card} (h : sortCards hand = []) : hand = [] := by
  have hlen : (sortCards hand).length = hand.length :=
    (List.perm_insertionSort cardLE hand).length_eq
  rw [h] at hlen
  cases hand with
  | nil => rfl
  | cons c0 rest => exact absurd hlen.symm (by simp)

/-- On any nonempty hand facing a Single reference, the error-aware branch
model agrees with `getSmartBotPlay`: it returns `.ok` of the chosen play. -/
lemma smartBotFollowSingleE_agrees (hand : List Card) (ref : Hand) (opp : List Nat)
    (cons : Nat) (next : Option Nat) (htype : ref.type = .Single) (hne : hand ≠ []) :
    smartBotFollowSingleE hand ref opp next =
      .ok (getSmartBotPlay hand (some ref) false opp cons next) := by
  cases hs : sortCards hand with
  | nil => exact absurd (sortCards_eq_nil hs) hne
  | cons c0 rest =>
    unfold smartBotFollowSingleE getSmartBotPlay
    rw [hs]
    simp only [htype, beq_self_eq_true, if_true, Bool.false_eq_true, if_false]
    by_cases hn : (next == some 1) = true
    · simp only [hn, if_true]
      rw [show (c0 :: rest).getLast? = some ((c0 :: rest).getLast (List.cons_ne_nil c0 rest))
        from rfl]
      by_cases hw : decide (getCardWeight ((c0 :: rest).getLast (List.cons_ne_nil c0 rest)) >
          ref.strength) = true
      · simp only [hw, if_true]
      · rw [Bool.not_eq_true] at hw
        simp only [hw, Bool.false_eq_true, if_false]
        cases findBombs (c0 :: rest) <;> rfl
    · rw [Bool.not_eq_true] at hn
      simp only [hn, Bool.false_eq_true, if_false]
      cases hf : (c0 :: rest).filter (fun cc => decide (getCardWeight cc > ref.strength)) with
      | nil =>
        dsimp only
        cases hcond : (opp.any (fun s => decide (s ≤ 3)) || decide (hand.length ≤ 5)) with
        | true =>
          simp only [hcond, if_true]
          cases findBombs (c0 :: rest) <;> rfl
        | false => simp only [hcond, Bool.false_eq_true, if_false]
      | cons v0 vrest =>
        dsimp only
        cases (v0 :: vrest).filter (fun cc => !(cc.rank == .R2)) <;> rfl

/-- C7 (counterexample): on an empty hand facing a Single reference with
the next player at one card — a context with no legal candidate move — the
source does not return null: it evaluates
`getCardWeight(sorted[sorted.length - 1])` with `sorted` empty and throws
a TypeError, `.error ()` in the error-aware branch model. -/
theorem claim_C7_empty_hand_throws :
    smartBotFollowSingleE [] ⟨[⟨.Spades, .R2, 0⟩], .Single, 123⟩ [] (some 1) =
      .error () := by
  rfl

/-- C7 (amended): when no legal candidate exists the bots pass rather than
erroring, for every hand that actually holds cards: `chooseBestMove`
returns `none` whenever `getAllLegalMoves` is empty, and `getSmartBotPlay`
on a nonempty hand facing a Single reference with no hand card beating it
and no bombs returns `none` — and does so without reaching any error path,
as the error-aware branch model returns `.ok none` there. On the empty
hand the source instead throws (see the counterexample). -/
theorem claim_C7_no_legal_move_passes :
    (∀ (cards : List Card) (evaluation : HandEvaluation) (context : BotContext),
      getAllLegalMoves evaluation context.lastPlayedHand = [] →
      chooseBestMove cards evaluation context = none) ∧
    (∀ (hand : List Card) (ref : Hand) (opp : List Nat) (cons : Nat) (next : Option Nat),
      hand ≠ [] →
      ref.type = .Single →
      (∀ c ∈ hand, getCardWeight c ≤ ref.strength) →
      findBombs (sortCards hand) = [] →
      getSmartBotPlay hand (some ref) false opp cons next = none) ∧
    (∀ (hand : List Card) (ref : Hand) (opp : List Nat) (next : Option Nat),
      hand ≠ [] →
      ref.type = .Single →
      (∀ c ∈ hand, getCardWeight c ≤ ref.strength) →
      findBombs (sortCards hand) = [] →
      smartBotFollowSingleE hand ref opp next = .ok none) := by
  have hpart2 : ∀ (hand : List Card) (ref : Hand) (opp : List Nat) (cons : Nat)
      (next : Option Nat), hand ≠ [] → ref.type = .Single →
      (∀ c ∈ hand, getCardWeight c ≤ ref.strength) →
      findBombs (sortCards hand) = [] →
      getSmartBotPlay hand (some ref) false opp cons next = none := by
    intro hand ref opp cons next hne htype hle hb
    cases hs : sortCards hand with
    | nil => exact absurd (sortCards_eq_nil hs) hne
    | cons c0 rest =>
      rw [hs] at hb
      have hmemle : ∀ c ∈ c0 :: rest, getCardWeight c ≤ ref.strength := by
        intro c hc
        exact hle c (mem_sortCards.mp (hs ▸ hc))
      simp only [getSmartBotPlay, hs, htype, Bool.false_eq_true, if_false, beq_self_eq_true,
        if_true]
      by_cases hn : (next == some 1) = true
      · rw [if_pos hn]
        have hlast : (c0 :: rest).getLast (List.cons_ne_nil c0 rest) ∈ c0 :: rest :=
          List.getLast_mem _
        have : ¬ (getCardWeight ((c0 :: rest).getLast (List.cons_ne_nil c0 rest)) >
            ref.strength) := by
          have := hmemle _ hlast
          omega
        rw [if_neg (by simpa using this), hb]
      · rw [if_neg hn]
        have hfilter : (c0 :: rest).filter
            (fun cc => decide (getCardWeight cc > ref.strength)) = [] := by
          rw [List.filter_eq_nil_iff]
          intro c hc
          have := hmemle c hc
          simp
          omega
        rw [hfilter]
        cases hcond : (opp.any (fun s => decide (s ≤ 3)) || decide (hand.length ≤ 5)) with
        | false => simp [hcond]
        | true => simp [hcond, hb]
  refine ⟨?_, hpart2, ?_⟩
  · intro cards evaluation context h
    simp [chooseBestMove, h]
  · intro hand ref opp next hne htype hle hb
    rw [smartBotFollowSingleE_agrees hand ref opp 0 next htype hne,
      hpart2 hand ref opp 0 next hne htype hle hb]

theorem claim_C7_no_legal_move_passes_witness :
    chooseBestMove [⟨.Clubs, .R3, 0⟩] (evaluateHand [⟨.Clubs, .R3, 0⟩])
        ⟨1, [13, 13, 13], some ⟨[⟨.Spades, .R2, 1⟩], .Single, 123⟩, 0⟩ = none ∧
    getSmartBotPlay [⟨.Clubs, .R3, 0⟩] (some ⟨[⟨.Spades, .R2, 1⟩], .Single, 123⟩) false
        [13, 13, 13] 0 (some 13) = none ∧
    smartBotFollowSingleE [⟨.Clubs, .R3, 0⟩] ⟨[⟨.Spades, .R2, 1⟩], .Single, 123⟩
        [13, 13, 13] (some 13) = .ok none :=
  ⟨claim_C7_no_legal_move_passes.1 [⟨.Clubs, .R3, 0⟩] (evaluateHand [⟨.Clubs, .R3, 0⟩])
      ⟨1, [13, 13, 13], some ⟨[⟨.Spades, .R2, 1⟩], .Single, 123⟩, 0⟩ (by decide),
    claim_C7_no_legal_move_passes.2.1 [⟨.Clubs, .R3, 0⟩]
      ⟨[⟨.Spades, .R2, 1⟩], .Single, 123⟩ [13, 13, 13] 0 (some 13) (by decide) rfl
      (by decide) (by decide),
    claim_C7_no_legal_move_passes.2.2 [⟨.Clubs, .R3, 0⟩]
      ⟨[⟨.Spades, .R2, 1⟩], .Single, 123⟩ [13, 13, 13] (some 13) (by decide) rfl
      (by decide) (by decide)⟩

/-- C9: when the lookahead bot leads (`lastPlayedHand = none`) its candidate
set is exactly the non-bomb fiveCards, the pairs and the singles — every
bomb combination is excluded — and consequently on a hand forming exactly
one straight flush and nothing else it passes even though leading with a
legal play available. -/
theorem claim_C9_leading_excludes_bombs :
    (∀ evaluation : HandEvaluation,
      getAllLegalMoves evaluation none =
        evaluation.fiveCards ++ evaluation.pairs ++ evaluation.singles.map singleCombo) ∧
    (∀ cards : List Card,
      ((evaluateHand cards).fiveCards.all (fun m => !(isBombType m.hand.type))) = true) ∧
    ((identifyHand [⟨.Clubs, .R3, 0⟩, ⟨.Clubs, .R4, 1⟩, ⟨.Clubs, .R5, 2⟩, ⟨.Clubs, .R6, 3⟩,
        ⟨.Clubs, .R7, 4⟩]).map (fun h => h.type) = some .StraightFlush ∧
      (evaluateHand [⟨.Clubs, .R3, 0⟩, ⟨.Clubs, .R4, 1⟩, ⟨.Clubs, .R5, 2⟩, ⟨.Clubs, .R6, 3⟩,
          ⟨.Clubs, .R7, 4⟩]).bombs.length = 1 ∧
      chooseBestMove [⟨.Clubs, .R3, 0⟩, ⟨.Clubs, .R4, 1⟩, ⟨.Clubs, .R5, 2⟩, ⟨.Clubs, .R6, 3⟩,
          ⟨.Clubs, .R7, 4⟩]
        (evaluateHand [⟨.Clubs, .R3, 0⟩, ⟨.Clubs, .R4, 1⟩, ⟨.Clubs, .R5, 2⟩, ⟨.Clubs, .R6, 3⟩,
          ⟨.Clubs, .R7, 4⟩]) ⟨5, [13, 13, 13], none, 0⟩ = none) := by
  refine ⟨fun evaluation => rfl, fun cards => ?_, by decide, by decide, by decide⟩
  rw [List.all_eq_true]
  intro m hm
  have h2 : m ∈ findAllFiveCardHands (sortCards cards) ∧ isBombType m.hand.type = false := by
    simpa [evaluateHand] using hm
  simp [h2.2]

/-- Every entry of `findBombs` is the card list of a bomb-typed identified
hand. -/
lemma findBombs_mem {sorted : List Card} {b : List Card} (h : b ∈ findBombs sorted) :
    ∃ hd : Hand, b = hd.cards ∧ isBombType hd.type = true := by
  unfold findBombs at h
  obtain ⟨hd, hmem, heq⟩ := List.mem_map.mp h
  exact ⟨hd, heq.symm, (List.mem_filter.mp hmem).2⟩

/-- C8: facing a Pair reference, the smart bot withholds a winning pair of
2s — it passes when its smallest valid pair has rank 2, every opponent
holds more than 3 cards and its own hand exceeds 5 cards; when the smallest
valid pair is not a pair of 2s it plays it; and with no valid pair it plays
the first bomb when one exists. -/
theorem claim_C8_pair_two_withholding (hand : List Card) (ref : Hand) (opp : List Nat)
    (cons : Nat) (next : Option Nat) (htype : ref.type = .Pair) :
    (∀ p ps x xs, smartValidPairs (sortCards hand) ref = p :: ps → p = x :: xs →
      x.rank = .R2 → (∀ s ∈ opp, 3 < s) → 5 < hand.length →
      getSmartBotPlay hand (some ref) false opp cons next = none) ∧
    (∀ p ps x xs, smartValidPairs (sortCards hand) ref = p :: ps → p = x :: xs →
      ¬ x.rank = .R2 →
      getSmartBotPlay hand (some ref) false opp cons next = some p) ∧
    (smartValidPairs (sortCards hand) ref = [] →
      ∀ b bs, findBombs (sortCards hand) = b :: bs →
      getSmartBotPlay hand (some ref) false opp cons next = some b ∧
        ∃ hd : Hand, b = hd.cards ∧ isBombType hd.type = true) := by
  refine ⟨?_, ?_, ?_⟩
  · intro p ps x xs hvp hp hx hopp hlen
    cases hs : sortCards hand with
    | nil => rw [hs] at hvp; exact absurd hvp (by simp [smartValidPairs, getAllPairs])
    | cons c0 rest =>
      rw [hs] at hvp
      have hdang : (opp.any (fun s => decide (s ≤ 3))) = false := by
        rw [List.any_eq_false]
        intro s hsmem
        have := hopp s hsmem
        simp
        omega
      have hlate : (decide (hand.length ≤ 5)) = false := by
        simp
        omega
      simp only [getSmartBotPlay, hs, htype, Bool.false_eq_true, if_false, hvp, hp,
        reduceCtorEq, beq_self_eq_true, if_true, hx, hdang, hlate]
      simp
  · intro p ps x xs hvp hp hx
    cases hs : sortCards hand with
    | nil => rw [hs] at hvp; exact absurd hvp (by simp [smartValidPairs, getAllPairs])
    | cons c0 rest =>
      rw [hs] at hvp
      have hx2 : (x.rank == Rank.R2) = false := by
        simp [hx]
      simp only [getSmartBotPlay, hs, htype, Bool.false_eq_true, if_false, hvp, hp,
        reduceCtorEq, beq_self_eq_true, if_true, hx2]
      simp
  · intro hvp b bs hb
    have hbomb : ∃ hd : Hand, b = hd.cards ∧ isBombType hd.type = true :=
      findBombs_mem (hb ▸ List.mem_cons_self b bs)
    cases hs : sortCards hand with
    | nil =>
      rw [hs] at hb
      have h0 : findBombs ([] : List Card) = [] := rfl
      rw [h0] at hb
      exact List.noConfusion hb
    | cons c0 rest =>
      rw [hs] at hvp hb
      refine ⟨?_, hbomb⟩
      simp only [getSmartBotPlay, hs, htype, Bool.false_eq_true, if_false, hvp, hb,
        reduceCtorEq, beq_self_eq_true, if_true]
      simp

theorem claim_C8_pair_two_withholding_witness :
    getSmartBotPlay [⟨.Spades, .R2, 1⟩, ⟨.Hearts, .R2, 2⟩, ⟨.Clubs, .R5, 3⟩, ⟨.Clubs, .R6, 4⟩,
        ⟨.Clubs, .R7, 5⟩, ⟨.Clubs, .R8, 6⟩, ⟨.Clubs, .R9, 7⟩]
      (some ⟨[⟨.Hearts, .RA, 8⟩, ⟨.Spades, .RA, 9⟩], .Pair, 113⟩) false [13, 13, 13] 0 none =
        none ∧
    getSmartBotPlay [⟨.Hearts, .R5, 0⟩, ⟨.Spades, .R5, 1⟩, ⟨.Clubs, .RK, 2⟩]
      (some ⟨[⟨.Clubs, .R3, 3⟩, ⟨.Diamonds, .R3, 4⟩], .Pair, 1⟩) false [13, 13, 13] 0 none =
        some [⟨.Hearts, .R5, 0⟩, ⟨.Spades, .R5, 1⟩] ∧
    getSmartBotPlay [⟨.Clubs, .R3, 0⟩, ⟨.Diamonds, .R3, 1⟩, ⟨.Hearts, .R3, 2⟩,
        ⟨.Spades, .R3, 3⟩, ⟨.Clubs, .R7, 4⟩, ⟨.Clubs, .R8, 5⟩]
      (some ⟨[⟨.Hearts, .R2, 6⟩, ⟨.Spades, .R2, 7⟩], .Pair, 123⟩) false [13, 13, 13] 0 none =
        some [⟨.Clubs, .R3, 0⟩, ⟨.Diamonds, .R3, 1⟩, ⟨.Hearts, .R3, 2⟩, ⟨.Spades, .R3, 3⟩,
          ⟨.Clubs, .R7, 4⟩] :=
  ⟨(claim_C8_pair_two_withholding
      [⟨.Spades, .R2, 1⟩, ⟨.Hearts, .R2, 2⟩, ⟨.Clubs, .R5, 3⟩, ⟨.Clubs, .R6, 4⟩,
        ⟨.Clubs, .R7, 5⟩, ⟨.Clubs, .R8, 6⟩, ⟨.Clubs, .R9, 7⟩]
      ⟨[⟨.Hearts, .RA, 8⟩, ⟨.Spades, .RA, 9⟩], .Pair, 113⟩ [13, 13, 13] 0 none rfl).1
      [⟨.Hearts, .R2, 2⟩, ⟨.Spades, .R2, 1⟩] [] ⟨.Hearts, .R2, 2⟩ [⟨.Spades, .R2, 1⟩]
      (by decide) rfl rfl (by decide) (by decide),
    (claim_C8_pair_two_withholding [⟨.Hearts, .R5, 0⟩, ⟨.Spades, .R5, 1⟩, ⟨.Clubs, .RK, 2⟩]
      ⟨[⟨.Clubs, .R3, 3⟩, ⟨.Diamonds, .R3, 4⟩], .Pair, 1⟩ [13, 13, 13] 0 none rfl).2.1
      [⟨.Hearts, .R5, 0⟩, ⟨.Spades, .R5, 1⟩] [] ⟨.Hearts, .R5, 0⟩ [⟨.Spades, .R5, 1⟩]
      (by decide) rfl (by decide),
    ((claim_C8_pair_two_withholding
      [⟨.Clubs, .R3, 0⟩, ⟨.Diamonds, .R3, 1⟩, ⟨.Hearts, .R3, 2⟩, ⟨.Spades, .R3, 3⟩,
        ⟨.Clubs, .R7, 4⟩, ⟨.Clubs, .R8, 5⟩]
      ⟨[⟨.Hearts, .R2, 6⟩, ⟨.Spades, .R2, 7⟩], .Pair, 123⟩ [13, 13, 13] 0 none rfl).2.2
      (by decide)
      [⟨.Clubs, .R3, 0⟩, ⟨.Diamonds, .R3, 1⟩, ⟨.Hearts, .R3, 2⟩, ⟨.Spades, .R3, 3⟩,
        ⟨.Clubs, .R7, 4⟩]
      [[⟨.Clubs, .R3, 0⟩, ⟨.Diamonds, .R3, 1⟩, ⟨.Hearts, .R3, 2⟩, ⟨.Spades, .R3, 3⟩,
        ⟨.Clubs, .R8, 5⟩]]
      (by decide)).1⟩

lemma suitOrder_le_three (s : Suit) : SuitOrder s ≤ 3 := by
  cases s <;> simp [SuitOrder]

lemma rankOrder_inj_aux : ∀ (r1 r2 : Rank), RankOrder r1 = RankOrder r2 → r1 = r2 := by
  intro r1 r2 h
  cases r1 <;> cases r2 <;> first | rfl | (exfalso; simp [RankOrder] at h)

lemma rankOrder_inj {r1 r2 : Rank} (h : RankOrder r1 = RankOrder r2) : r1 = r2 :=
  rankOrder_inj_aux r1 r2 h

/-- Weight order refines rank order, since suits only contribute 0–3 within
a 10-wide rank band. -/
lemma rankOrder_le_of_cardLE {a b : Card} (h : cardLE a b) :
    RankOrder a.rank ≤ RankOrder b.rank := by
  have ha := suitOrder_le_three a.suit
  have hb := suitOrder_le_three b.suit
  unfold cardLE getCardWeight at h
  omega

/-- A card weight-sandwiched between two cards of equal rank has that rank. -/
lemma rank_between {a b c : Card} (h1 : cardLE a b) (h2 : cardLE b c)
    (h3 : a.rank = c.rank) : b.rank = a.rank := by
  have g1 := rankOrder_le_of_cardLE h1
  have g2 := rankOrder_le_of_cardLE h2
  have h4 : RankOrder a.rank = RankOrder c.rank := by rw [h3]
  exact rankOrder_inj (by omega)

/-- Three distinct ranks cannot all come from a two-rank alphabet. -/
lemma not_ranks345_of_two {L : List Rank} {x y : Rank} (h : ∀ t ∈ L, t = x ∨ t = y) :
    ¬(Rank.R3 ∈ L ∧ Rank.R4 ∈ L ∧ Rank.R5 ∈ L) := by
  rintro ⟨h3, h4, h5⟩
  rcases h _ h3 with e3 | e3 <;> rcases h _ h4 with e4 | e4 <;> rcases h _ h5 with e5 | e5 <;>
    first
    | exact absurd (e3.trans e4.symm) (by decide)
    | exact absurd (e3.trans e5.symm) (by decide)
    | exact absurd (e4.trans e5.symm) (by decide)

lemma isA2345Check_false_of_two {rs : List Rank} {x y : Rank}
    (hsub : ∀ q ∈ rs, q = x ∨ q = y) : isA2345Check rs = false := by
  refine Bool.eq_false_iff.mpr (fun h => ?_)
  unfold isA2345Check at h
  simp only [Bool.and_eq_true] at h
  obtain ⟨⟨⟨⟨h1, h2⟩, h3⟩, h4⟩, h5⟩ := h
  exact not_ranks345_of_two hsub
    ⟨List.elem_iff.mp h3, List.elem_iff.mp h4, List.elem_iff.mp h5⟩

lemma is23456Check_false_of_two {rs : List Rank} {x y : Rank}
    (hsub : ∀ q ∈ rs, q = x ∨ q = y) : is23456Check rs = false := by
  refine Bool.eq_false_iff.mpr (fun h => ?_)
  unfold is23456Check at h
  simp only [Bool.and_eq_true] at h
  obtain ⟨⟨⟨⟨h1, h2⟩, h3⟩, h4⟩, h5⟩ := h
  exact not_ranks345_of_two hsub
    ⟨List.elem_iff.mp h2, List.elem_iff.mp h3, List.elem_iff.mp h4⟩

lemma isStandardStraightCheck_false_of_eq12 {w0 w1 w2 w3 w4 : Nat} (h : w0 = w1) :
    isStandardStraightCheck w0 w1 w2 w3 w4 = false := by
  refine Bool.eq_false_iff.mpr (fun hh => ?_)
  unfold isStandardStraightCheck at hh
  simp only [Bool.and_eq_true] at hh
  have := hh.1.1.1
  rw [beq_iff_eq] at this
  omega

lemma isStandardStraightCheck_false_of_eq23 {w0 w1 w2 w3 w4 : Nat} (h : w1 = w2) :
    isStandardStraightCheck w0 w1 w2 w3 w4 = false := by
  refine Bool.eq_false_iff.mpr (fun hh => ?_)
  unfold isStandardStraightCheck at hh
  simp only [Bool.and_eq_true] at hh
  have := hh.1.1.2
  rw [beq_iff_eq] at this
  omega

/-- Evaluation of the 5-card classifier on a sorted quad pattern with the
kicker in front. -/
lemma identifyFive_quad_kicker_first (a b c d e : Card) (r : Rank)
    (hb : b.rank = r) (hc : c.rank = r) (hd : d.rank = r) (he : e.rank = r)
    (_ha : a.rank ≠ r) :
    identifyFive a b c d e = some ⟨[a, b, c, d, e], .FourOfAKind, RankOrder r⟩ := by
  have hsub : ∀ q ∈ [a.rank, b.rank, c.rank, d.rank, e.rank], q = a.rank ∨ q = r := by
    intro q hq
    simp at hq
    rcases hq with h | h | h | h | h <;> simp [h, hb, hc, hd, he]
  have hstd : isStandardStraightCheck (RankOrder a.rank) (RankOrder b.rank)
      (RankOrder c.rank) (RankOrder d.rank) (RankOrder e.rank) = false :=
    isStandardStraightCheck_false_of_eq23 (by rw [hb, hc])
  have hA := isA2345Check_false_of_two hsub
  have h2 := is23456Check_false_of_two hsub
  unfold identifyFive
  simp only [hstd, hA, h2, Bool.or_self, Bool.false_or, Bool.or_false, Bool.false_eq_true,
    if_false]
  simp [hb, hc, hd, he]

/-- Evaluation of the 5-card classifier on a sorted quad pattern with the
kicker at the back. -/
lemma identifyFive_quad_kicker_last (a b c d e : Card) (r : Rank)
    (ha : a.rank = r) (hb : b.rank = r) (hc : c.rank = r) (hd : d.rank = r)
    (_he : e.rank ≠ r) :
    identifyFive a b c d e = some ⟨[a, b, c, d, e], .FourOfAKind, RankOrder r⟩ := by
  have hsub : ∀ q ∈ [a.rank, b.rank, c.rank, d.rank, e.rank], q = e.rank ∨ q = r := by
    intro q hq
    simp at hq
    rcases hq with h | h | h | h | h <;> simp [h, ha, hb, hc, hd]
  have hstd : isStandardStraightCheck (RankOrder a.rank) (RankOrder b.rank)
      (RankOrder c.rank) (RankOrder d.rank) (RankOrder e.rank) = false :=
    isStandardStraightCheck_false_of_eq12 (by rw [ha, hb])
  have hA := isA2345Check_false_of_two hsub
  have h2 := is23456Check_false_of_two hsub
  unfold identifyFive
  simp only [hstd, hA, h2, Bool.or_self, Bool.false_or, Bool.or_false, Bool.false_eq_true,
    if_false]
  simp [ha, hc, hd]

/-- Evaluation of the 5-card classifier on the sorted triple-then-pair full
house pattern. -/
lemma identifyFive_fullhouse_low (a b c d e : Card) (t p : Rank)
    (ha : a.rank = t) (hb : b.rank = t) (hc : c.rank = t) (hd : d.rank = p)
    (he : e.rank = p) (hne : t ≠ p) :
    identifyFive a b c d e = some ⟨[a, b, c, d, e], .FullHouse, RankOrder t⟩ := by
  have hsub : ∀ q ∈ [a.rank, b.rank, c.rank, d.rank, e.rank], q = t ∨ q = p := by
    intro q hq
    simp at hq
    rcases hq with h | h | h | h | h <;> simp [h, ha, hb, hc, hd, he]
  have hstd : isStandardStraightCheck (RankOrder a.rank) (RankOrder b.rank)
      (RankOrder c.rank) (RankOrder d.rank) (RankOrder e.rank) = false :=
    isStandardStraightCheck_false_of_eq12 (by rw [ha, hb])
  have hA := isA2345Check_false_of_two hsub
  have h2 := is23456Check_false_of_two hsub
  have htp : (t == p) = false := by
    simp [hne]
  unfold identifyFive
  simp only [hstd, hA, h2, Bool.or_self, Bool.false_or, Bool.or_false, Bool.false_eq_true,
    if_false]
  simp [ha, hb, hc, hd, he, htp]

/-- Evaluation of the 5-card classifier on the sorted pair-then-triple full
house pattern. -/
lemma identifyFive_fullhouse_high (a b c d e : Card) (t p : Rank)
    (ha : a.rank = p) (hb : b.rank = p) (hc : c.rank = t) (hd : d.rank = t)
    (he : e.rank = t) (hne : t ≠ p) :
    identifyFive a b c d e = some ⟨[a, b, c, d, e], .FullHouse, RankOrder t⟩ := by
  have hsub : ∀ q ∈ [a.rank, b.rank, c.rank, d.rank, e.rank], q = t ∨ q = p := by
    intro q hq
    simp at hq
    rcases hq with h | h | h | h | h <;> simp [h, ha, hb, hc, hd, he]
  have hstd : isStandardStraightCheck (RankOrder a.rank) (RankOrder b.rank)
      (RankOrder c.rank) (RankOrder d.rank) (RankOrder e.rank) = false :=
    isStandardStraightCheck_false_of_eq12 (by rw [ha, hb])
  have hA := isA2345Check_false_of_two hsub
  have h2 := is23456Check_false_of_two hsub
  have hpt : (p == t) = false := by
    simp
    exact fun h => hne h.symm
  unfold identifyFive
  simp only [hstd, hA, h2, Bool.or_self, Bool.false_or, Bool.or_false, Bool.false_eq_true,
    if_false]
  simp [ha, hb, hc, hd, he, hpt]

/-- A list of length five is an explicit five-element list. -/
lemma length_eq_five {α : Type} {l : List α} (h : l.length = 5) :
    ∃ a b c d e, l = [a, b, c, d, e] := by
  rcases l with _ | ⟨a, _ | ⟨b, _ | ⟨c, _ | ⟨d, _ | ⟨e, _ | ⟨f, t⟩⟩⟩⟩⟩⟩ <;>
    first
    | exact ⟨_, _, _, _, _, rfl⟩
    | simp_all

/-- C4: a 5-card group holding four cards of one rank (plus an off-rank
kicker) classifies as FourOfAKind with strength the quad rank's order,
independent of kicker and suits; a 5-card group holding three cards of one
rank and two of another classifies as FullHouse with strength the triple
rank's order. -/
theorem claim_C4_quad_fullhouse_strength :
    (∀ (cards : List Card) (r : Rank), cards.length = 5 →
      (cards.filter (fun x => x.rank == r)).length = 4 →
      ∃ h : Hand, identifyHand cards = some h ∧ h.type = .FourOfAKind ∧
        h.strength = RankOrder r) ∧
    (∀ (cards : List Card) (t p : Rank), t ≠ p → cards.length = 5 →
      (cards.filter (fun x => x.rank == t)).length = 3 →
      (cards.filter (fun x => x.rank == p)).length = 2 →
      ∃ h : Hand, identifyHand cards = some h ∧ h.type = .FullHouse ∧
        h.strength = RankOrder t) := by
  constructor
  · intro cards r hlen hcount
    have hperm : List.Perm (sortCards cards) cards := List.perm_insertionSort cardLE cards
    have hsorted : List.Sorted cardLE (sortCards cards) := List.sorted_insertionSort cardLE cards
    have hslen : (sortCards cards).length = 5 := hperm.length_eq.trans hlen
    obtain ⟨a, b, c, d, e, hs5⟩ := length_eq_five hslen
    have hscount : ((sortCards cards).filter (fun x => x.rank == r)).length = 4 := by
      rw [List.Perm.length_eq (hperm.filter _)]
      exact hcount
    rw [hs5] at hsorted hscount
    have hid : identifyHand cards = identifyFive a b c d e := by
      unfold identifyHand
      rw [hs5]
    simp [List.sorted_cons] at hsorted
    obtain ⟨⟨hab, hac, had, hae⟩, ⟨hbc, hbd, hbe⟩, ⟨hcd, hce⟩, hde⟩ := hsorted
    by_cases h1 : a.rank = r <;> by_cases h2 : b.rank = r <;> by_cases h3 : c.rank = r <;>
      by_cases h4 : d.rank = r <;> by_cases h5 : e.rank = r <;>
      simp [h1, h2, h3, h4, h5] at hscount
    · exact ⟨⟨[a, b, c, d, e], .FourOfAKind, RankOrder r⟩,
        by rw [hid, identifyFive_quad_kicker_last a b c d e r h1 h2 h3 h4 h5], rfl, rfl⟩
    · exact absurd ((rank_between hcd hde (h3.trans h5.symm)).trans h3) h4
    · exact absurd ((rank_between hbc hcd (h2.trans h4.symm)).trans h2) h3
    · exact absurd ((rank_between hab hbc (h1.trans h3.symm)).trans h1) h2
    · exact ⟨⟨[a, b, c, d, e], .FourOfAKind, RankOrder r⟩,
        by rw [hid, identifyFive_quad_kicker_first a b c d e r h2 h3 h4 h5 h1], rfl, rfl⟩
  · intro cards t p hne hlen hcount3 hcount2
    have hperm : List.Perm (sortCards cards) cards := List.perm_insertionSort cardLE cards
    have hsorted : List.Sorted cardLE (sortCards cards) := List.sorted_insertionSort cardLE cards
    have hslen : (sortCards cards).length = 5 := hperm.length_eq.trans hlen
    obtain ⟨a, b, c, d, e, hs5⟩ := length_eq_five hslen
    have hscount3 : ((sortCards cards).filter (fun x => x.rank == t)).length = 3 := by
      rw [List.Perm.length_eq (hperm.filter _)]
      exact hcount3
    have hscount2 : ((sortCards cards).filter (fun x => x.rank == p)).length = 2 := by
      rw [List.Perm.length_eq (hperm.filter _)]
      exact hcount2
    rw [hs5] at hsorted hscount3 hscount2
    have hid : identifyHand cards = identifyFive a b c d e := by
      unfold identifyHand
      rw [hs5]
    simp [List.sorted_cons] at hsorted
    obtain ⟨⟨hab, hac, had, hae⟩, ⟨hbc, hbd, hbe⟩, ⟨hcd, hce⟩, hde⟩ := hsorted
    by_cases h1 : a.rank = t <;> by_cases h2 : b.rank = t <;> by_cases h3 : c.rank = t <;>
      by_cases h4 : d.rank = t <;> by_cases h5 : e.rank = t <;>
      simp [h1, h2, h3, h4, h5] at hscount3
    · by_cases hd5 : d.rank = p <;> by_cases he5 : e.rank = p <;>
        simp [h1, h2, h3, hne, hd5, he5] at hscount2
      exact ⟨⟨[a, b, c, d, e], .FullHouse, RankOrder t⟩,
        by rw [hid, identifyFive_fullhouse_low a b c d e t p h1 h2 h3 hd5 he5 hne], rfl, rfl⟩
    · exact absurd ((rank_between hbc hcd (h2.trans h4.symm)).trans h2) h3
    · exact absurd ((rank_between hbc hce (h2.trans h5.symm)).trans h2) h3
    · exact absurd ((rank_between hab hbc (h1.trans h3.symm)).trans h1) h2
    · exact absurd ((rank_between hab hbc (h1.trans h3.symm)).trans h1) h2
    · exact absurd ((rank_between hab hbd (h1.trans h4.symm)).trans h1) h2
    · by_cases ha5 : a.rank = p <;> by_cases he5 : e.rank = p <;>
        simp [h2, h3, h4, hne, ha5, he5] at hscount2
      exact absurd (h2.symm.trans ((rank_between hab hbe (ha5.trans he5.symm)).trans ha5)) hne
    · exact absurd ((rank_between hcd hde (h3.trans h5.symm)).trans h3) h4
    · exact absurd ((rank_between hbc hcd (h2.trans h4.symm)).trans h2) h3
    · by_cases ha5 : a.rank = p <;> by_cases hb5 : b.rank = p <;>
        simp [h3, h4, h5, hne, ha5, hb5] at hscount2
      exact ⟨⟨[a, b, c, d, e], .FullHouse, RankOrder t⟩,
        by rw [hid, identifyFive_fullhouse_high a b c d e t p ha5 hb5 h3 h4 h5 hne], rfl, rfl⟩

theorem claim_C4_quad_fullhouse_strength_witness :
    (∃ h : Hand, identifyHand [⟨.Clubs, .R9, 0⟩, ⟨.Diamonds, .R9, 1⟩, ⟨.Hearts, .R9, 2⟩,
        ⟨.Spades, .R9, 3⟩, ⟨.Clubs, .R4, 4⟩] = some h ∧ h.type = .FourOfAKind ∧
        h.strength = RankOrder .R9) ∧
    (∃ h : Hand, identifyHand [⟨.Clubs, .RK, 5⟩, ⟨.Diamonds, .RK, 6⟩, ⟨.Hearts, .RK, 7⟩,
        ⟨.Clubs, .R5, 8⟩, ⟨.Spades, .R5, 9⟩] = some h ∧ h.type = .FullHouse ∧
        h.strength = RankOrder .RK) :=
  ⟨claim_C4_quad_fullhouse_strength.1
      [⟨.Clubs, .R9, 0⟩, ⟨.Diamonds, .R9, 1⟩, ⟨.Hearts, .R9, 2⟩, ⟨.Spades, .R9, 3⟩,
        ⟨.Clubs, .R4, 4⟩] .R9 (by decide) (by decide),
    claim_C4_quad_fullhouse_strength.2
      [⟨.Clubs, .RK, 5⟩, ⟨.Diamonds, .RK, 6⟩, ⟨.Hearts, .RK, 7⟩, ⟨.Clubs, .R5, 8⟩,
        ⟨.Spades, .R5, 9⟩] .RK .R5 (by decide) (by decide) (by decide) (by decide)⟩

end BigTwo
